import Mathlib

/-!
Verification development for the dynamo-repository data-access layer.

The TypeScript sources are shallowly embedded: each JavaScript value that a
key or marshaled item can hold is a `JsVal` (primitives compare by value,
objects by reference identity, exactly as the `===` operator does); JS objects
used as keys/items are association lists from attribute names to `JsVal`;
property access on a missing attribute yields `JsVal.undefined`, as in JS.

Embedded components:
* `sameKey`, `uniqueKeys`, `getEntityKey` - from `repository.class.ts` and
  `get-entity-key.ts`;
* `CacheState`/`cachedGet`/`addToCacheByKey`/`clearCache` - from
  `repository.cached.class.ts` (promises are modelled as allocation
  identifiers carrying a settlement state; the class never destroys a
  promise, so the promise table only grows);
* the unit-of-work tracker (`track`, `trackNew` tracking part, `deleteEntity`,
  `dispatch`, `flushRun`) - from `repository.managed.class.ts`; `Promise.all`
  is modelled by giving every dispatched operation a settlement time and an
  outcome, with `Promise.all` settling at the earliest rejection or, when all
  succeed, at the latest resolution;
* the pull-based search generator (`fetchLoop`, `pull`, `nthPull`) - from
  `DynamoRepository.search` / `buildScanBlockGenerator` in
  `repository.class.ts` (the generator keeps an outer `sourceIsEmpty` flag
  and the block generator an inner one; both are updated from the same store
  response and stay equal at every call boundary, so one flag models both).
-/

/-- One entry of a DynamoDB key schema: attribute name plus key type
("HASH" or "RANGE"). -/
structure SchemaEntry where
  AttributeName : String
  KeyType : String
deriving DecidableEq, Repr

/-- A JavaScript value as far as key/item attributes are concerned.
Primitives (modelled by strings) compare by value under the strict equality
operator; objects compare by reference, modelled by an allocation identifier;
`undefined` is the JS undefined value (also the result of reading an absent
property). -/
inductive JsVal where
  | undefined
  | str (s : String)
  | obj (id : Nat)
deriving DecidableEq, Repr

/-- A JS object used as a DocumentClient key or attribute map: an association
list from attribute names to values (JS objects cannot repeat a property
name, so the lists used here have pairwise distinct first components). -/
abbrev JsObj := List (String × JsVal)

/-- JS property read `o[a]`: the stored value, or undefined when absent. -/
def jsLookup (o : JsObj) (a : String) : JsVal :=
  match o.find? (fun p => p.1 == a) with
  | some p => p.2
  | none => .undefined

/-- Embedding of the module-level helper of repository.class.ts:
`Object.keys(key1).every((k) => key2[k] === key1[k])`.  Only the attributes
of `key1` are consulted and values are compared with `===`. -/
def sameKey (key1 key2 : JsObj) : Bool :=
  key1.all (fun p => jsLookup key2 p.1 == p.2)

/-- Embedding of `uniqueKeys` of repository.class.ts: a left fold that keeps a
key only when no already-kept key is `sameKey`-matched by it. -/
def uniqueKeys (arrArg : List JsObj) : List JsObj :=
  arrArg.foldl
    (fun output key =>
      if output.any (fun k2 => sameKey key k2) then output else output ++ [key])
    []

/-- The `keySchema.find((k) => k.KeyType === t)` step of get-entity-key.ts. -/
def findKeySchema (keySchema : List SchemaEntry) (t : String) : Option SchemaEntry :=
  keySchema.find? (fun k => k.KeyType == t)

/-- Embedding of get-entity-key.ts.  `none` models the TypeError thrown when
the schema lacks a HASH entry.  The range attribute is added only when the
range schema entry exists and its name is truthy (a non-empty string), per
`if (rangeKey)`. -/
def getEntityKey (keySchema : List SchemaEntry) (entity : JsObj) : Option JsObj :=
  (findKeySchema keySchema "HASH").map (fun hs =>
    let base : JsObj := [(hs.AttributeName, jsLookup entity hs.AttributeName)]
    match findKeySchema keySchema "RANGE" with
    | some rs =>
        if rs.AttributeName == "" then base
        else base ++ [(rs.AttributeName, jsLookup entity rs.AttributeName)]
    | none => base)

/-- Claim C7 counterexample: `sameKey` deems a key equal to one that carries
an extra attribute (it only inspects the first argument's attributes), and
the comparison is not symmetric - refuting "equal iff all attributes present
in either key compare equal" and the claimed symmetry. -/
theorem sameKey_extra_attribute_counterexample :
    sameKey [("a", JsVal.str "1")] [("a", JsVal.str "1"), ("b", JsVal.str "2")] = true ∧
    sameKey [("a", JsVal.str "1"), ("b", JsVal.str "2")] [("a", JsVal.str "1")] = false := by
  decide

/-- Claim C7 (amended): `sameKey key1 key2` holds iff every attribute present
in `key1` reads back from `key2` with a strictly-equal (`===`) value; the
comparison consults only `key1`'s attributes (so it is one-directional, not
symmetric) and object-valued attributes compare by reference identity. -/
theorem sameKey_characterization (key1 key2 : JsObj) :
    sameKey key1 key2 = true ↔ ∀ p ∈ key1, jsLookup key2 p.1 = p.2 := by
  simp [sameKey, List.all_eq_true]

/-! ## Association-list helpers modelling the JS `Map` (SameValueZero keys,
`set` updates an existing key in place and otherwise appends). -/

def alookup {α β : Type} [DecidableEq α] : List (α × β) → α → Option β
  | [], _ => none
  | p :: rest, a => if p.1 = a then some p.2 else alookup rest a

def aset {α β : Type} [DecidableEq α] : List (α × β) → α → β → List (α × β)
  | [], a, b => [(a, b)]
  | p :: rest, a, b => if p.1 = a then (a, b) :: rest else p :: aset rest a b

theorem alookup_aset_self {α β : Type} [DecidableEq α] (l : List (α × β)) (a : α) (b : β) :
    alookup (aset l a b) a = some b := by
  induction l with
  | nil => simp [alookup, aset]
  | cons p rest ih =>
    by_cases h : p.1 = a <;> simp [alookup, aset, h, ih]

theorem alookup_aset_ne {α β : Type} [DecidableEq α] (l : List (α × β)) (a a₂ : α) (b : β)
    (hne : a ≠ a₂) : alookup (aset l a b) a₂ = alookup l a₂ := by
  induction l with
  | nil => simp [alookup, aset, hne]
  | cons p rest ih =>
    by_cases h : p.1 = a
    · simp [alookup, aset, h, hne, Ne.symm hne]
    · by_cases h₂ : p.1 = a₂ <;> simp [alookup, aset, h, h₂, ih, Ne.symm hne]

/-! ## Read cache (repository.cached.class.ts)

The cache is `Map<hashValue, Map<rangeValue, Promise<Entity>>>`.  A promise is
modelled by its allocation identifier together with a settlement state kept in
`promises`; `storeGets` counts the point reads delegated to `super.get`
(each uncached `get` issues exactly one).  `events` is the emission log of the
repository's event emitter. -/

/-- Settlement state of a cached promise: still pending, resolved with the
unmarshaled entity (or `none` for a store miss), or rejected with a store
error. -/
inductive PromState (E Err : Type) where
  | pending
  | resolved (value : Option E)
  | rejected (error : Err)
deriving DecidableEq

/-- Events emitted by the cached repository.  `cacheKeyInUse` carries the
cached promise (the code passes `this.getFromCache(key)`) and the offered
item. -/
inductive CacheEvent (E : Type) where
  | cacheKeyInUse (cachedItem : Nat) (newItem : Option E)
deriving DecidableEq

/-- State of one `CachedDynamoRepository` instance. -/
structure CacheState (E Err : Type) where
  buckets : List (JsVal × List (JsVal × Nat))
  promises : List (Nat × PromState E Err)
  nextId : Nat
  storeGets : Nat
  events : List (CacheEvent E)
deriving DecidableEq

section CacheModel

variable {E Err : Type} [DecidableEq E] [DecidableEq Err]
variable (hashKeyAttr : String) (rangeKeyAttr : Option String)

/-- `key[this.hashKey]`. -/
def keyHashVal (key : JsObj) : JsVal := jsLookup key hashKeyAttr

/-- `key[this.rangeKey]`; when the table has no range key the field
`this.rangeKey` is undefined and the read yields undefined. -/
def keyRangeVal (key : JsObj) : JsVal :=
  match rangeKeyAttr with
  | some a => jsLookup key a
  | none => JsVal.undefined

/-- `keyIsCached`/`getFromCache` lookup path: bucket by hash value, then entry
by range value. -/
def cacheLookup (s : CacheState E Err) (key : JsObj) : Option Nat :=
  match alookup s.buckets (keyHashVal hashKeyAttr key) with
  | some bucket => alookup bucket (keyRangeVal rangeKeyAttr key)
  | none => none

/-- Promise settlement state by identifier. -/
def promOf (s : CacheState E Err) (pid : Nat) : Option (PromState E Err) :=
  alookup s.promises pid

/-- Embedding of `CachedDynamoRepository.get`: on a cache miss the pending
delegate promise (one `super.get` point read) is installed synchronously
before anything can resolve; on a hit the cached promise is returned with no
store call and no state change. -/
def cachedGet (key : JsObj) (s : CacheState E Err) : Nat × CacheState E Err :=
  match cacheLookup hashKeyAttr rangeKeyAttr s key with
  | some pid => (pid, s)
  | none =>
    let h := keyHashVal hashKeyAttr key
    let r := keyRangeVal rangeKeyAttr key
    let pid := s.nextId
    let bucket := (alookup s.buckets h).getD []
    (pid,
      { s with
        buckets := aset s.buckets h (aset bucket r pid)
        promises := aset s.promises pid PromState.pending
        nextId := pid + 1
        storeGets := s.storeGets + 1 })

/-- `clear()` - `this.cache.clear()`: drops every bucket; already-created
promises are untouched (nothing holds them through the cache any more). -/
def clearCache (s : CacheState E Err) : CacheState E Err := { s with buckets := [] }

/-- The delegate of an installed promise settling (the store call resolving
or rejecting); only the promise table changes. -/
def settlePromise (s : CacheState E Err) (pid : Nat) (st : PromState E Err) :
    CacheState E Err :=
  { s with promises := aset s.promises pid st }

/-- Result of `addToCacheByKey`: normal return, a thrown (rejected) error
from awaiting a rejected cached promise, or suspension on a still-pending
cached promise (the continuation then runs after that promise settles; the
claims below only concern settled entries). -/
inductive AddOutcome (Err : Type) where
  | ok
  | threw (error : Err)
  | blocked
deriving DecidableEq

/-- Installing `Promise.resolve(entity)` under the key, as the tail of
`addToCacheByKey` does: a fresh already-resolved promise. -/
def installResolved (key : JsObj) (entity : Option E) (s : CacheState E Err) :
    CacheState E Err :=
  let h := keyHashVal hashKeyAttr key
  let r := keyRangeVal rangeKeyAttr key
  let pid := s.nextId
  let bucket := (alookup s.buckets h).getD []
  { s with
    buckets := aset s.buckets h (aset bucket r pid)
    promises := aset s.promises pid (PromState.resolved entity)
    nextId := pid + 1 }

/-- Embedding of `CachedDynamoRepository.addToCacheByKey`: awaits the cached
promise for the key; a resolved present value is kept (with a `cacheKeyInUse`
emission when the offered value differs by reference); a resolved miss
(`await` yielding undefined) falls through to the install step and is
overwritten by a fresh `Promise.resolve(entity)`. -/
def addToCacheByKey (key : JsObj) (entity : Option E) (s : CacheState E Err) :
    AddOutcome Err × CacheState E Err :=
  match cacheLookup hashKeyAttr rangeKeyAttr s key with
  | some pid =>
    match promOf s pid with
    | some PromState.pending => (AddOutcome.blocked, s)
    | some (PromState.rejected e) => (AddOutcome.threw e, s)
    | some (PromState.resolved (some x)) =>
      if entity = some x then (AddOutcome.ok, s)
      else (AddOutcome.ok,
        { s with events := s.events ++ [CacheEvent.cacheKeyInUse pid entity] })
    | some (PromState.resolved none) =>
      (AddOutcome.ok, installResolved hashKeyAttr rangeKeyAttr key entity s)
    | none => (AddOutcome.blocked, s)
  | none => (AddOutcome.ok, installResolved hashKeyAttr rangeKeyAttr key entity s)

end CacheModel

section CacheTheorems

set_option linter.unusedSectionVars false

variable {E Err : Type} [DecidableEq E] [DecidableEq Err]

/-- Helper: `get` on a cached key returns the cached promise unchanged. -/
theorem cachedGet_hit (hk : String) (rk : Option String)
    (s : CacheState E Err) (key : JsObj) (pid : Nat)
    (h : cacheLookup hk rk s key = some pid) :
    cachedGet hk rk key s = (pid, s) := by
  simp [cachedGet, h]

/-- Helper: `get` on an uncached key installs the pending delegate promise
and counts one store point read. -/
theorem cachedGet_miss (hk : String) (rk : Option String)
    (s : CacheState E Err) (key : JsObj)
    (h : cacheLookup hk rk s key = none) :
    cachedGet hk rk key s =
      (s.nextId,
        { s with
          buckets := aset s.buckets (keyHashVal hk key)
            (aset ((alookup s.buckets (keyHashVal hk key)).getD [])
              (keyRangeVal rk key) s.nextId)
          promises := aset s.promises s.nextId PromState.pending
          nextId := s.nextId + 1
          storeGets := s.storeGets + 1 }) := by
  simp [cachedGet, h]

/-- Claim C1: for every key, the first `get` on an uncached key installs the
pending delegate future and issues exactly one store point read; a second
`get` issued while that future is still pending returns the very same future
with no further store call and no state change (single-flight); once the key
is resolved in the cache each subsequent `get` still returns the identical
cached future with no store call; settling the delegate never changes the
cache index; only `clear()` empties it (forcing the next `get` to re-fetch). -/
theorem cachedGet_single_flight (hk : String) (rk : Option String)
    (s : CacheState E Err) (key : JsObj) :
    (cacheLookup hk rk s key = none →
      (cachedGet hk rk key s).2.storeGets = s.storeGets + 1 ∧
      cacheLookup hk rk (cachedGet hk rk key s).2 key = some (cachedGet hk rk key s).1 ∧
      promOf (cachedGet hk rk key s).2 (cachedGet hk rk key s).1 = some PromState.pending ∧
      cachedGet hk rk key (cachedGet hk rk key s).2
        = ((cachedGet hk rk key s).1, (cachedGet hk rk key s).2)) ∧
    (∀ pid, cacheLookup hk rk s key = some pid → cachedGet hk rk key s = (pid, s)) ∧
    (∀ pid st, cacheLookup hk rk (settlePromise s pid st) key = cacheLookup hk rk s key) ∧
    (clearCache s).storeGets = s.storeGets ∧
    cacheLookup hk rk (clearCache s) key = none := by
  refine ⟨?_, ?_, ?_, rfl, ?_⟩
  · intro hmiss
    have h1 := cachedGet_miss hk rk s key hmiss
    have h2 : cacheLookup hk rk (cachedGet hk rk key s).2 key = some s.nextId := by
      rw [h1]
      simp [cacheLookup, alookup_aset_self]
    have h3 := cachedGet_hit hk rk (cachedGet hk rk key s).2 key s.nextId h2
    refine ⟨by rw [h1], ?_, ?_, ?_⟩
    · rw [h2, h1]
    · rw [h1]
      simp [promOf, alookup_aset_self]
    · rw [h3, h1]
  · intro pid hhit
    exact cachedGet_hit hk rk s key pid hhit
  · intro pid st
    simp [cacheLookup, settlePromise]
  · simp [cacheLookup, clearCache, alookup]

/-- A fresh cached repository over entities and errors both modelled by
naturals, with hash attribute "id" and no range attribute (used by the
concrete witnesses below). -/
def cacheStateEmptyNat : CacheState Nat Nat := ⟨[], [], 0, 0, []⟩

/-- The key object for hash value "k" under hash attribute "id". -/
def keyIdK : JsObj := [("id", JsVal.str "k")]

/-- Witness for claim C1 at a concrete fresh repository and key. -/
theorem cachedGet_single_flight_witness :
    (cachedGet "id" none keyIdK cacheStateEmptyNat).2.storeGets
      = cacheStateEmptyNat.storeGets + 1 ∧
    cachedGet "id" none keyIdK (cachedGet "id" none keyIdK cacheStateEmptyNat).2
      = ((cachedGet "id" none keyIdK cacheStateEmptyNat).1,
         (cachedGet "id" none keyIdK cacheStateEmptyNat).2) :=
  ⟨((cachedGet_single_flight "id" none cacheStateEmptyNat keyIdK).1 (by decide)).1,
   ((cachedGet_single_flight "id" none cacheStateEmptyNat keyIdK).1 (by decide)).2.2.2⟩

/-- Claim C10: a rejected point read stays memoized exactly like a resolved
one: while the cache holds the rejected future for the key, `get` returns
that same future (hence the same error on await) without any new store call
or state change; `clear()` drops the entry, after which `get` issues a fresh
point read. -/
theorem cachedGet_rejected_memoized (hk : String) (rk : Option String)
    (s : CacheState E Err) (key : JsObj) (pid : Nat) (e : Err)
    (hc : cacheLookup hk rk s key = some pid)
    (hp : promOf s pid = some (PromState.rejected e)) :
    cachedGet hk rk key s = (pid, s) ∧
    promOf (cachedGet hk rk key s).2 (cachedGet hk rk key s).1
      = some (PromState.rejected e) ∧
    (cachedGet hk rk key s).2.storeGets = s.storeGets ∧
    cacheLookup hk rk (clearCache s) key = none ∧
    (cachedGet hk rk key (clearCache s)).2.storeGets = s.storeGets + 1 := by
  have h1 := cachedGet_hit hk rk s key pid hc
  have h2 : cacheLookup hk rk (clearCache s) key = none := by
    simp [cacheLookup, clearCache, alookup]
  refine ⟨h1, ?_, ?_, h2, ?_⟩
  · rw [h1]
    exact hp
  · rw [h1]
  · rw [cachedGet_miss hk rk (clearCache s) key h2]
    rfl

/-- A repository whose sole cache entry for key "k" is a rejected promise
(the delegate point read failed with store error 7). -/
def cacheStateRejected : CacheState Nat Nat :=
  ⟨[(JsVal.str "k", [(JsVal.undefined, 0)])], [(0, PromState.rejected 7)], 1, 1, []⟩

/-- Witness for claim C10 at a concrete repository holding a rejected entry. -/
theorem cachedGet_rejected_memoized_witness :
    cachedGet "id" none keyIdK cacheStateRejected = (0, cacheStateRejected) ∧
    promOf (cachedGet "id" none keyIdK cacheStateRejected).2
        (cachedGet "id" none keyIdK cacheStateRejected).1
      = some (PromState.rejected 7) ∧
    (cachedGet "id" none keyIdK cacheStateRejected).2.storeGets
      = cacheStateRejected.storeGets ∧
    cacheLookup "id" none (clearCache cacheStateRejected) keyIdK = none ∧
    (cachedGet "id" none keyIdK (clearCache cacheStateRejected)).2.storeGets
      = cacheStateRejected.storeGets + 1 :=
  cachedGet_rejected_memoized "id" none cacheStateRejected keyIdK 0 7
    (by decide) (by decide)

/-- Claim C4 (amended): when a key holds a resolved cached value that is a
present entity, offering any value leaves the cache untouched and never
throws, and a `cacheKeyInUse` notification (cached promise, offered item) is
emitted exactly when the offered value differs by reference; but when the
resolved cached value is a miss (resolved absent), the offered entity
silently overwrites the entry with a fresh resolved promise and no
notification is emitted. -/
theorem addToCacheByKey_collision_policy (hk : String) (rk : Option String)
    (s : CacheState E Err) (key : JsObj) (pid : Nat) (v : Option E) (entity : Option E)
    (hc : cacheLookup hk rk s key = some pid)
    (hp : promOf s pid = some (PromState.resolved v)) :
    (∀ x, v = some x →
      addToCacheByKey hk rk key entity s =
        (AddOutcome.ok,
          if entity = some x then s
          else { s with events := s.events ++ [CacheEvent.cacheKeyInUse pid entity] })) ∧
    (v = none →
      addToCacheByKey hk rk key entity s =
        (AddOutcome.ok, installResolved hk rk key entity s) ∧
      cacheLookup hk rk (installResolved hk rk key entity s) key = some s.nextId ∧
      promOf (installResolved hk rk key entity s) s.nextId
        = some (PromState.resolved entity) ∧
      (installResolved hk rk key entity s).events = s.events) := by
  constructor
  · intro x hx
    subst hx
    by_cases hxe : entity = some x <;> simp [addToCacheByKey, hc, hp, hxe]
  · intro hv
    subst hv
    refine ⟨by simp [addToCacheByKey, hc, hp], ?_, ?_, rfl⟩
    · simp [cacheLookup, installResolved, alookup_aset_self]
    · simp [promOf, installResolved, alookup_aset_self]

end CacheTheorems

/-- A repository whose entry for key "k" is a resolved miss (a previously
cached "not found", promise 0 resolved to undefined). -/
def cacheStateMiss : CacheState Nat Nat :=
  ⟨[(JsVal.str "k", [(JsVal.undefined, 0)])], [(0, PromState.resolved none)], 1, 0, []⟩

/-- Claim C4 counterexample: key "k" holds a resolved cached value (a cached
miss) and the different entity 5 is offered, yet the call emits no
notification and replaces the original entry (the key now maps to the fresh
promise 1 resolved to entity 5) - refuting "leaves the original cached value
in place" and "emits a cache key in use notification" for the cached-miss
case the claim singles out. -/
theorem addToCacheByKey_cached_miss_counterexample :
    cacheLookup "id" none cacheStateMiss keyIdK = some 0 ∧
    promOf cacheStateMiss 0 = some (PromState.resolved none) ∧
    (addToCacheByKey "id" none keyIdK (some 5) cacheStateMiss).1 = AddOutcome.ok ∧
    (addToCacheByKey "id" none keyIdK (some 5) cacheStateMiss).2.events = [] ∧
    cacheLookup "id" none (addToCacheByKey "id" none keyIdK (some 5) cacheStateMiss).2 keyIdK
      = some 1 ∧
    promOf (addToCacheByKey "id" none keyIdK (some 5) cacheStateMiss).2 1
      = some (PromState.resolved (some 5)) := by
  decide

/-- A repository whose entry for key "k" is resolved to the present entity 3. -/
def cacheStatePresent : CacheState Nat Nat :=
  ⟨[(JsVal.str "k", [(JsVal.undefined, 0)])], [(0, PromState.resolved (some 3))], 1, 0, []⟩

/-- Witness for claim C4 (amended) at a concrete repository: a resolved
present entry is kept and the differing offer is reported; a resolved miss is
overwritten silently. -/
theorem addToCacheByKey_collision_policy_witness :
    addToCacheByKey "id" none keyIdK (some 5) cacheStatePresent =
      (AddOutcome.ok,
        { cacheStatePresent with
          events := cacheStatePresent.events ++ [CacheEvent.cacheKeyInUse 0 (some 5)] }) ∧
    (addToCacheByKey "id" none keyIdK (some 5) cacheStateMiss =
      (AddOutcome.ok, installResolved "id" none keyIdK (some 5) cacheStateMiss) ∧
     cacheLookup "id" none (installResolved "id" none keyIdK (some 5) cacheStateMiss) keyIdK
       = some cacheStateMiss.nextId ∧
     promOf (installResolved "id" none keyIdK (some 5) cacheStateMiss) cacheStateMiss.nextId
       = some (PromState.resolved (some 5)) ∧
     (installResolved "id" none keyIdK (some 5) cacheStateMiss).events
       = cacheStateMiss.events) := by
  constructor
  · have h := (addToCacheByKey_collision_policy "id" none cacheStatePresent keyIdK 0
      (some 3) (some 5) (by decide) (by decide)).1 3 rfl
    simpa using h
  · exact (addToCacheByKey_collision_policy "id" none cacheStateMiss keyIdK 0
      none (some 5) (by decide) (by decide)).2 rfl

/-! ## Unit-of-work tracker (repository.managed.class.ts)

The tracked table is a JS `Map` keyed by entity reference, modelled as an
association list from entity references to a tracked-entry configuration.
An entity's in-memory value at a given instant is supplied by a function
`curVal : ERef → Val` (mutation between tracking and flushing is expressed by
using different value functions at the two instants).  `JSON.stringify` is an
abstract serialisation `stringify : Val → Ser` and `this.config.marshal` an
abstract `marshal : Val → JsObj`.

`flush` pushes one promise per tracked entry and awaits `Promise.all`.  The
asynchronous store is an oracle `orc` assigning the i-th dispatched operation
a settlement time and an outcome; `Promise.all` resolves at the latest
resolution when all succeed and otherwise rejects at the earliest rejection
(ties by dispatch order), which is exactly the JS builtin's behaviour - in
particular it does not wait for still-pending siblings.  `deleteItem` returns
the store promise from inside its `try` block without awaiting it, so the
rejection adopts through the async function and the `catch` that would emit
`error.deleting` never runs; `createItem`/`updateItem` do await and their
catches do run. -/

/-- Removal of the (single) entry under a key, as `Map.delete` does. -/
def aremove {α β : Type} [DecidableEq α] : List (α × β) → α → List (α × β)
  | [], _ => []
  | p :: rest, a => if p.1 = a then rest else p :: aremove rest a

/-- The action recorded for a tracked entity. -/
inductive TrackAction where
  | create
  | update
  | del
deriving DecidableEq

/-- One value of the tracked table: `{action, initialStatus?}` (the `entity`
field of the source record is the table key itself). -/
structure TrackedCfg (Ser : Type) where
  action : TrackAction
  initialStatus : Option Ser
deriving DecidableEq

/-- The tracked table: JS `Map<entity, {action, initialStatus?, entity}>`. -/
abbrev TrackedTable (ERef Ser : Type) := List (ERef × TrackedCfg Ser)

/-- The operation `flush` dispatches for one tracked entry: `createItem`
always puts; `updateItem` puts only when `entityHasChanged` and otherwise
resolves without a store call; `deleteItem` deletes by the derived key
(where `none` marks the schema-error throw of `getEntityKey`). -/
inductive FlushOp where
  | putCreate (item : JsObj)
  | putUpdate (item : JsObj)
  | skipUpdate
  | delOp (key : Option JsObj)
deriving DecidableEq

/-- A call that actually reaches the document client during flush. -/
inductive StoreCall where
  | putItem (item : JsObj)
  | deleteKey (key : Option JsObj)
deriving DecidableEq

/-- Events emitted by the managed repository (the `eventType` enum). -/
inductive MEvent (ERef Err : Type) where
  | flushed
  | errorFlushing
  | errorCreating (error : Err) (entity : ERef)
  | errorUpdating (error : Err) (entity : ERef)
  | errorDeleting (error : Err) (entity : ERef)
deriving DecidableEq

section ManagedModel

variable {ERef Val Ser Err : Type} [DecidableEq ERef] [DecidableEq Ser] [DecidableEq Err]

/-- Embedding of `ManagedDynamoRepository.track`: undefined and already
tracked entities are no-ops; otherwise the entity is recorded as UPDATE with
`initialStatus = JSON.stringify(entity)` captured now. -/
def track (stringify : Val → Ser) (curVal : ERef → Val)
    (entity : Option ERef) (tbl : TrackedTable ERef Ser) : TrackedTable ERef Ser :=
  match entity with
  | none => tbl
  | some e =>
    if (alookup tbl e).isSome then tbl
    else tbl ++ [(e, ⟨TrackAction.update, some (stringify (curVal e))⟩)]

/-- The tracked-table effect of `ManagedDynamoRepository.trackNew` (its cache
seeding through `addToCache` acts on the cache state, not on this table):
undefined and already tracked entities are no-ops; otherwise record CREATE
with no snapshot. -/
def trackNewTable (entity : Option ERef) (tbl : TrackedTable ERef Ser) :
    TrackedTable ERef Ser :=
  match entity with
  | none => tbl
  | some e =>
    if (alookup tbl e).isSome then tbl
    else tbl ++ [(e, ⟨TrackAction.create, none⟩)]

/-- Embedding of `ManagedDynamoRepository.delete`: undefined is a no-op; an
entity currently tracked as CREATE is dropped from the table; any other
entity (tracked otherwise or untracked) is set to DELETE. -/
def deleteEntity (entity : Option ERef) (tbl : TrackedTable ERef Ser) :
    TrackedTable ERef Ser :=
  match entity with
  | none => tbl
  | some e =>
    match alookup tbl e with
    | some cfg =>
      if cfg.action = TrackAction.create then aremove tbl e
      else aset tbl e ⟨TrackAction.del, none⟩
    | none => aset tbl e ⟨TrackAction.del, none⟩

/-- The switch of `flush` together with the bodies of
`createItem`/`updateItem`/`deleteItem`, for one tracked entry.
`entityHasChanged` is `JSON.stringify(entity) !== initialStatus`. -/
def dispatch (stringify : Val → Ser) (marshal : Val → JsObj)
    (keySchema : List SchemaEntry) (curVal : ERef → Val)
    (e : ERef) (cfg : TrackedCfg Ser) : FlushOp :=
  match cfg.action with
  | TrackAction.update =>
    if some (stringify (curVal e)) = cfg.initialStatus then FlushOp.skipUpdate
    else FlushOp.putUpdate (marshal (curVal e))
  | TrackAction.create => FlushOp.putCreate (marshal (curVal e))
  | TrackAction.del => FlushOp.delOp (getEntityKey keySchema (marshal (curVal e)))

/-- The `processed` list of `flush`: one dispatched operation per tracked
entry, in table iteration order. -/
def dispatchList (stringify : Val → Ser) (marshal : Val → JsObj)
    (keySchema : List SchemaEntry) (curVal : ERef → Val)
    (tbl : TrackedTable ERef Ser) : List (ERef × FlushOp) :=
  tbl.map (fun p => (p.1, dispatch stringify marshal keySchema curVal p.1 p.2))

/-- The store calls a dispatched operation performs. -/
def storeCallsOf : FlushOp → List StoreCall
  | FlushOp.putCreate item => [StoreCall.putItem item]
  | FlushOp.putUpdate item => [StoreCall.putItem item]
  | FlushOp.skipUpdate => []
  | FlushOp.delOp key => [StoreCall.deleteKey key]

/-- All store calls flush issues on behalf of the entity `e`. -/
def storeCallsFor (stringify : Val → Ser) (marshal : Val → JsObj)
    (keySchema : List SchemaEntry) (curVal : ERef → Val)
    (tbl : TrackedTable ERef Ser) (e : ERef) : List StoreCall :=
  (((dispatchList stringify marshal keySchema curVal tbl).filter
      (fun p => p.1 = e)).map (fun p => storeCallsOf p.2)).flatten

/-- Settlement of the i-th dispatched promise: an unchanged UPDATE resolves
immediately without consulting the store; every other operation settles per
the store oracle. -/
def settleOf (orc : Nat → Nat × Except Err Unit) (i : Nat) (op : FlushOp) :
    Nat × Except Err Unit :=
  match op with
  | FlushOp.skipUpdate => (0, Except.ok ())
  | _ => orc i

/-- The events one dispatched operation emits when it settles: the catches of
`createItem`/`updateItem` report the store error tagged with the action and
the original entity; `deleteItem` returns the un-awaited store promise from
its try block, so its catch never fires and a failing delete emits nothing. -/
def opEvents (e : ERef) (op : FlushOp) (t : Nat) (out : Except Err Unit) :
    List (Nat × MEvent ERef Err) :=
  match out with
  | Except.ok _ => []
  | Except.error err =>
    match op with
    | FlushOp.putCreate _ => [(t, MEvent.errorCreating err e)]
    | FlushOp.putUpdate _ => [(t, MEvent.errorUpdating err e)]
    | FlushOp.skipUpdate => []
    | FlushOp.delOp _ => []

/-- Every dispatched operation with its settlement time and outcome. -/
def settledList (stringify : Val → Ser) (marshal : Val → JsObj)
    (keySchema : List SchemaEntry) (curVal : ERef → Val)
    (orc : Nat → Nat × Except Err Unit) (tbl : TrackedTable ERef Ser) :
    List (ERef × FlushOp × Nat × Except Err Unit) :=
  (dispatchList stringify marshal keySchema curVal tbl).enum.map
    (fun p => (p.2.1, p.2.2, settleOf orc p.1 p.2.2))

/-- The (time, error) pairs of the failing dispatched operations. -/
def failuresOf (l : List (ERef × FlushOp × Nat × Except Err Unit)) :
    List (Nat × Err) :=
  l.filterMap (fun p =>
    match p.2.2.2 with
    | Except.error err => some (p.2.2.1, err)
    | Except.ok _ => none)

/-- One step of scanning for the temporally first rejection: keep the
earlier of the failure seen so far and the next one (strictly earlier wins,
so a tie keeps the earlier dispatch). -/
def ffStep (acc : Option (Nat × Err)) (x : Nat × Err) : Option (Nat × Err) :=
  match acc with
  | none => some x
  | some a => if x.1 < a.1 then some x else some a

/-- The rejection `Promise.all` adopts: the temporally first failure, ties
resolved in dispatch order. -/
def firstFail (l : List (Nat × Err)) : Option (Nat × Err) :=
  l.foldl ffStep none

/-- When all dispatched operations succeed `Promise.all` resolves once the
slowest has. -/
def maxSettleTime (l : List (ERef × FlushOp × Nat × Except Err Unit)) : Nat :=
  l.foldl (fun m p => max m p.2.2.1) 0

/-- The per-operation emissions of one flush. -/
def perOpEvents (l : List (ERef × FlushOp × Nat × Except Err Unit)) :
    List (Nat × MEvent ERef Err) :=
  (l.map (fun p => opEvents p.1 p.2.1 p.2.2.1 p.2.2.2)).flatten

/-- The settlement of one `flush()` call: its own settlement time, its
outcome (`await Promise.all`), and the event log (each entry stamped with its
emission time): per-operation failure reports, then `error.flushing` at the
rejection instant or `flushed` at the resolution instant. -/
def flushRun (stringify : Val → Ser) (marshal : Val → JsObj)
    (keySchema : List SchemaEntry) (curVal : ERef → Val)
    (orc : Nat → Nat × Except Err Unit) (tbl : TrackedTable ERef Ser) :
    Nat × Except Err Unit × List (Nat × MEvent ERef Err) :=
  let settled := settledList stringify marshal keySchema curVal orc tbl
  match firstFail (failuresOf settled) with
  | some q =>
    (q.1, Except.error q.2, perOpEvents settled ++ [(q.1, MEvent.errorFlushing)])
  | none =>
    (maxSettleTime settled, Except.ok (),
      perOpEvents settled ++ [(maxSettleTime settled, MEvent.flushed)])

end ManagedModel

/-! ## Helper lemmas about the tracked table -/

theorem alookup_eq_none_of_not_mem {α β : Type} [DecidableEq α]
    (l : List (α × β)) (a : α) (h : a ∉ l.map Prod.fst) : alookup l a = none := by
  induction l with
  | nil => rfl
  | cons p rest ih =>
    simp only [List.map_cons, List.mem_cons, not_or] at h
    have h1 : ¬ p.1 = a := fun hh => h.1 hh.symm
    simp only [alookup, if_neg h1]
    exact ih h.2

theorem mem_keys_of_mem_keys_aset {α β : Type} [DecidableEq α]
    (l : List (α × β)) (a x : α) (b : β)
    (h : x ∈ (aset l a b).map Prod.fst) : x ∈ l.map Prod.fst ∨ x = a := by
  induction l with
  | nil => simpa [aset] using h
  | cons p rest ih =>
    by_cases hp : p.1 = a
    · simp only [aset, if_pos hp, List.map_cons, List.mem_cons] at h
      rcases h with h | h
      · exact Or.inr h
      · exact Or.inl (by simp [h])
    · simp only [aset, if_neg hp, List.map_cons, List.mem_cons] at h ⊢
      rcases h with h | h
      · exact Or.inl (Or.inl h)
      · rcases ih h with h2 | h2
        · exact Or.inl (Or.inr h2)
        · exact Or.inr h2

theorem keys_aset_nodup {α β : Type} [DecidableEq α]
    (l : List (α × β)) (a : α) (b : β)
    (hnd : (l.map Prod.fst).Nodup) : ((aset l a b).map Prod.fst).Nodup := by
  induction l with
  | nil => simp [aset]
  | cons p rest ih =>
    simp only [List.map_cons, List.nodup_cons] at hnd
    by_cases hp : p.1 = a
    · simp only [aset, if_pos hp, List.map_cons, List.nodup_cons]
      exact ⟨hp ▸ hnd.1, hnd.2⟩
    · simp only [aset, if_neg hp, List.map_cons, List.nodup_cons]
      refine ⟨fun hmem => ?_, ih hnd.2⟩
      rcases mem_keys_of_mem_keys_aset rest a p.1 b hmem with h2 | h2
      · exact hnd.1 h2
      · exact hp h2

theorem not_mem_keys_aremove {α β : Type} [DecidableEq α]
    (l : List (α × β)) (a : α)
    (hnd : (l.map Prod.fst).Nodup) : a ∉ (aremove l a).map Prod.fst := by
  induction l with
  | nil => simp [aremove]
  | cons p rest ih =>
    simp only [List.map_cons, List.nodup_cons] at hnd
    by_cases hp : p.1 = a
    · simpa [aremove, if_pos hp, hp] using hnd.1
    · simp only [aremove, if_neg hp, List.map_cons, List.mem_cons, not_or]
      exact ⟨fun hh => hp hh.symm, ih hnd.2⟩

theorem filter_map_keys_nil {α β γ : Type} [DecidableEq α]
    (l : List (α × β)) (f : α → β → γ) (e : α)
    (h : e ∉ l.map Prod.fst) :
    (l.map (fun p => (p.1, f p.1 p.2))).filter (fun p => p.1 = e) = [] := by
  induction l with
  | nil => rfl
  | cons p rest ih =>
    simp only [List.map_cons, List.mem_cons, not_or] at h
    simp only [List.map_cons, List.filter_cons]
    rw [if_neg (by simpa using fun hh => h.1 hh.symm)]
    exact ih h.2

theorem filter_map_keys_single {α β γ : Type} [DecidableEq α]
    (l : List (α × β)) (f : α → β → γ) (e : α) (cfg : β)
    (hnd : (l.map Prod.fst).Nodup) (h : alookup l e = some cfg) :
    (l.map (fun p => (p.1, f p.1 p.2))).filter (fun p => p.1 = e) = [(e, f e cfg)] := by
  induction l with
  | nil => cases h
  | cons p rest ih =>
    simp only [List.map_cons, List.nodup_cons] at hnd
    by_cases hp : p.1 = e
    · have hcfg : cfg = p.2 := by
        simp only [alookup, if_pos hp] at h
        exact (Option.some_injective _ h).symm
      subst hcfg
      subst hp
      simp only [List.map_cons, List.filter_cons]
      rw [if_pos (by simp), filter_map_keys_nil rest f p.1 hnd.1]
    · simp only [alookup, if_neg hp] at h
      simp only [List.map_cons, List.filter_cons]
      rw [if_neg (by simpa using hp)]
      exact ih hnd.2 h

section ManagedTheorems

set_option linter.unusedSectionVars false

variable {ERef Val Ser Err : Type} [DecidableEq ERef] [DecidableEq Ser] [DecidableEq Err]

/-- Helper: with unique table keys, the dispatched work of a tracked entity
is exactly the operation its tracked configuration prescribes. -/
theorem storeCallsFor_eq (stringify : Val → Ser) (marshal : Val → JsObj)
    (keySchema : List SchemaEntry) (curVal : ERef → Val)
    (tbl : TrackedTable ERef Ser) (e : ERef) (cfg : TrackedCfg Ser)
    (hnd : (tbl.map Prod.fst).Nodup) (h : alookup tbl e = some cfg) :
    storeCallsFor stringify marshal keySchema curVal tbl e
      = storeCallsOf (dispatch stringify marshal keySchema curVal e cfg) := by
  unfold storeCallsFor dispatchList
  rw [filter_map_keys_single tbl _ e cfg hnd h]
  simp

/-- Helper: an entity absent from the table keys gets no store call. -/
theorem storeCallsFor_nil (stringify : Val → Ser) (marshal : Val → JsObj)
    (keySchema : List SchemaEntry) (curVal : ERef → Val)
    (tbl : TrackedTable ERef Ser) (e : ERef)
    (h : e ∉ tbl.map Prod.fst) :
    storeCallsFor stringify marshal keySchema curVal tbl e = [] := by
  unfold storeCallsFor dispatchList
  rw [filter_map_keys_nil tbl _ e h]
  rfl

/-- Claim C2: an entity observed through a read path is tracked as UPDATE
with the serialized snapshot captured at tracking time, and flush compares
the entity's current serialized form against that snapshot: when they are
equal the entity causes zero store calls; when they differ it causes exactly
one put carrying the full current marshaled state. -/
theorem flush_update_change_detection (stringify : Val → Ser) (marshal : Val → JsObj)
    (keySchema : List SchemaEntry) (curVal : ERef → Val)
    (tbl : TrackedTable ERef Ser) (e : ERef) (v₀ : Val)
    (hnd : (tbl.map Prod.fst).Nodup)
    (htrack : alookup tbl e = some ⟨TrackAction.update, some (stringify v₀)⟩) :
    (∀ (cv₀ : ERef → Val) (tbl₀ : TrackedTable ERef Ser), alookup tbl₀ e = none →
      track stringify cv₀ (some e) tbl₀
        = tbl₀ ++ [(e, ⟨TrackAction.update, some (stringify (cv₀ e))⟩)]) ∧
    (stringify (curVal e) = stringify v₀ →
      storeCallsFor stringify marshal keySchema curVal tbl e = []) ∧
    (stringify (curVal e) ≠ stringify v₀ →
      storeCallsFor stringify marshal keySchema curVal tbl e
        = [StoreCall.putItem (marshal (curVal e))]) := by
  refine ⟨?_, ?_, ?_⟩
  · intro cv₀ tbl₀ h0
    simp [track, h0]
  · intro heq
    rw [storeCallsFor_eq stringify marshal keySchema curVal tbl e _ hnd htrack]
    simp [dispatch, heq, storeCallsOf]
  · intro hne
    rw [storeCallsFor_eq stringify marshal keySchema curVal tbl e _ hnd htrack]
    simp [dispatch, hne, storeCallsOf]

/-- Claim C5: deleting a CREATE-tracked entity drops it from tracking
entirely, so flush issues zero store calls on its behalf; deleting an entity
in any other state - tracked otherwise or entirely untracked - records
DELETE, so flush issues exactly one store delete keyed by the key derived
from the entity's marshaled current state. -/
theorem delete_tracking_state_machine (stringify : Val → Ser) (marshal : Val → JsObj)
    (keySchema : List SchemaEntry) (curVal : ERef → Val)
    (tbl : TrackedTable ERef Ser) (e : ERef)
    (hnd : (tbl.map Prod.fst).Nodup) :
    (∀ st₀, alookup tbl e = some ⟨TrackAction.create, st₀⟩ →
      deleteEntity (some e) tbl = aremove tbl e ∧
      alookup (aremove tbl e) e = none ∧
      storeCallsFor stringify marshal keySchema curVal (aremove tbl e) e = []) ∧
    ((∀ cfg, alookup tbl e = some cfg → cfg.action ≠ TrackAction.create) →
      deleteEntity (some e) tbl = aset tbl e ⟨TrackAction.del, none⟩ ∧
      storeCallsFor stringify marshal keySchema curVal
          (aset tbl e ⟨TrackAction.del, none⟩) e
        = [StoreCall.deleteKey (getEntityKey keySchema (marshal (curVal e)))]) := by
  constructor
  · intro st₀ h
    have hout := not_mem_keys_aremove tbl e hnd
    refine ⟨by simp [deleteEntity, h], alookup_eq_none_of_not_mem _ e hout,
      storeCallsFor_nil stringify marshal keySchema curVal _ e hout⟩
  · intro hno
    have hset : deleteEntity (some e) tbl = aset tbl e ⟨TrackAction.del, none⟩ := by
      cases halo : alookup tbl e with
      | none => simp [deleteEntity, halo]
      | some cfg => simp [deleteEntity, halo, hno cfg halo]
    refine ⟨hset, ?_⟩
    rw [storeCallsFor_eq stringify marshal keySchema curVal _ e ⟨TrackAction.del, none⟩
      (keys_aset_nodup tbl e _ hnd) (alookup_aset_self tbl e _)]
    simp [dispatch, storeCallsOf]

/-- Claim C9: `track` and `delete` called with the absent value (undefined)
return immediately and leave the tracked table unchanged, so a read
resolving to absent adds no tracked entry and a subsequent flush dispatches
exactly the operations it would have dispatched anyway. -/
theorem track_delete_absent_frame (stringify : Val → Ser) (marshal : Val → JsObj)
    (keySchema : List SchemaEntry) (curVal : ERef → Val)
    (tbl : TrackedTable ERef Ser) :
    track stringify curVal none tbl = tbl ∧
    deleteEntity (none : Option ERef) tbl = tbl ∧
    dispatchList stringify marshal keySchema curVal (track stringify curVal none tbl)
      = dispatchList stringify marshal keySchema curVal tbl :=
  ⟨rfl, rfl, rfl⟩

/-- Helper: folding the first-failure scan from an already-chosen candidate
yields an element no later than the candidate and than every scanned entry. -/
theorem ffStep_foldl_spec (l : List (Nat × Err)) (a b : Nat × Err)
    (h : l.foldl ffStep (some a) = some b) :
    (b = a ∨ b ∈ l) ∧ b.1 ≤ a.1 ∧ ∀ q ∈ l, b.1 ≤ q.1 := by
  induction l generalizing a with
  | nil =>
    simp only [List.foldl_nil, Option.some_inj] at h
    exact ⟨Or.inl h.symm, h ▸ le_refl _, by simp⟩
  | cons x rest ih =>
    simp only [List.foldl_cons] at h
    by_cases hlt : x.1 < a.1
    · have h2 : rest.foldl ffStep (some x) = some b := by
        simpa [ffStep, hlt] using h
      obtain ⟨hmem, hle, hall⟩ := ih x h2
      refine ⟨?_, le_trans hle (le_of_lt hlt), ?_⟩
      · rcases hmem with h3 | h3
        · exact Or.inr (by rw [h3]; exact List.mem_cons_self x rest)
        · exact Or.inr (List.mem_cons_of_mem x h3)
      · intro q hq
        rcases List.mem_cons.mp hq with h3 | h3
        · exact h3 ▸ hle
        · exact hall q h3
    · have h2 : rest.foldl ffStep (some a) = some b := by
        simpa [ffStep, hlt] using h
      obtain ⟨hmem, hle, hall⟩ := ih a h2
      refine ⟨?_, hle, ?_⟩
      · rcases hmem with h3 | h3
        · exact Or.inl h3
        · exact Or.inr (List.mem_cons_of_mem x h3)
      · intro q hq
        rcases List.mem_cons.mp hq with h3 | h3
        · exact h3 ▸ le_trans hle (le_of_not_lt hlt)
        · exact hall q h3

/-- Helper: the failure `firstFail` selects is an actual failure and none
settles earlier. -/
theorem firstFail_spec (l : List (Nat × Err)) (b : Nat × Err)
    (h : firstFail l = some b) : b ∈ l ∧ ∀ q ∈ l, b.1 ≤ q.1 := by
  cases l with
  | nil => cases h
  | cons x rest =>
    have h2 : rest.foldl ffStep (some x) = some b := by
      simpa [firstFail, ffStep] using h
    obtain ⟨hmem, hle, hall⟩ := ffStep_foldl_spec rest x b h2
    refine ⟨?_, ?_⟩
    · rcases hmem with h3 | h3
      · exact by rw [h3]; exact List.mem_cons_self x rest
      · exact List.mem_cons_of_mem x h3
    · intro q hq
      rcases List.mem_cons.mp hq with h3 | h3
      · exact h3 ▸ hle
      · exact hall q h3

/-- Helper: the scan never loses an already-present candidate. -/
theorem ffStep_foldl_isSome (l : List (Nat × Err)) (a : Nat × Err) :
    (l.foldl ffStep (some a)).isSome := by
  induction l generalizing a with
  | nil => rfl
  | cons x rest ih =>
    by_cases hlt : x.1 < a.1 <;> simp [List.foldl_cons, ffStep, hlt, ih]

/-- Claim C3 (amended): flush awaits `Promise.all` over the dispatched
operations; when every operation succeeds flush settles successfully once
the slowest has and emits "flushed"; when at least one fails, flush rejects
with the temporally first failure at that failure's own settlement instant -
without waiting for later-settling sibling operations - emitting
"error.flushing" at that same instant after the per-operation failure
reports. -/
theorem flush_promise_all (stringify : Val → Ser) (marshal : Val → JsObj)
    (keySchema : List SchemaEntry) (curVal : ERef → Val)
    (orc : Nat → Nat × Except Err Unit) (tbl : TrackedTable ERef Ser) :
    (failuresOf (settledList stringify marshal keySchema curVal orc tbl) = [] →
      flushRun stringify marshal keySchema curVal orc tbl
        = (maxSettleTime (settledList stringify marshal keySchema curVal orc tbl),
           Except.ok (),
           perOpEvents (settledList stringify marshal keySchema curVal orc tbl)
             ++ [(maxSettleTime (settledList stringify marshal keySchema curVal orc tbl),
                  MEvent.flushed)])) ∧
    (failuresOf (settledList stringify marshal keySchema curVal orc tbl) ≠ [] →
      (firstFail (failuresOf (settledList stringify marshal keySchema curVal orc tbl))).isSome) ∧
    (∀ b, firstFail (failuresOf (settledList stringify marshal keySchema curVal orc tbl))
        = some b →
      flushRun stringify marshal keySchema curVal orc tbl
        = (b.1, Except.error b.2,
           perOpEvents (settledList stringify marshal keySchema curVal orc tbl)
             ++ [(b.1, MEvent.errorFlushing)]) ∧
      b ∈ failuresOf (settledList stringify marshal keySchema curVal orc tbl) ∧
      ∀ q ∈ failuresOf (settledList stringify marshal keySchema curVal orc tbl),
        b.1 ≤ q.1) := by
  refine ⟨?_, ?_, ?_⟩
  · intro h
    simp [flushRun, h, firstFail]
  · intro h
    cases hl : failuresOf (settledList stringify marshal keySchema curVal orc tbl) with
    | nil => exact absurd hl h
    | cons x rest =>
      have := ffStep_foldl_isSome rest x
      simpa [firstFail, ffStep] using this
  · intro b hb
    obtain ⟨hmem, hall⟩ := firstFail_spec _ b hb
    exact ⟨by simp [flushRun, hb], hmem, hall⟩

end ManagedTheorems

/-- A hash-only key schema on attribute "id" for the concrete examples. -/
def ksId : List SchemaEntry := [⟨"id", "HASH"⟩]

/-- A concrete marshal for natural-number entity values. -/
def marshalNat : Nat → JsObj := fun v => [("id", JsVal.obj v)]

/-- Witness for claim C2: an UPDATE-tracked entity whose serialized form
still equals its snapshot causes no store call at flush, and one whose form
changed causes exactly the one put of its full current marshaled state. -/
theorem flush_update_change_detection_witness :
    storeCallsFor (fun v : Nat => v) marshalNat ksId (fun _ : Nat => 0)
      [(1, ⟨TrackAction.update, some 0⟩)] 1 = [] ∧
    storeCallsFor (fun v : Nat => v) marshalNat ksId (fun _ : Nat => 7)
      [(1, ⟨TrackAction.update, some 0⟩)] 1 = [StoreCall.putItem (marshalNat 7)] :=
  ⟨(flush_update_change_detection (fun v : Nat => v) marshalNat ksId (fun _ : Nat => 0)
      [(1, ⟨TrackAction.update, some 0⟩)] 1 0 (by decide) (by decide)).2.1 rfl,
   (flush_update_change_detection (fun v : Nat => v) marshalNat ksId (fun _ : Nat => 7)
      [(1, ⟨TrackAction.update, some 0⟩)] 1 0 (by decide) (by decide)).2.2 (by decide)⟩

/-- Witness for claim C5: deleting a pending create cancels it (no store
calls), and deleting an untracked entity records DELETE and flushes one
store delete under the derived key. -/
theorem delete_tracking_state_machine_witness :
    (deleteEntity (some 1) [(1, (⟨TrackAction.create, none⟩ : TrackedCfg Nat))]
       = aremove [(1, ⟨TrackAction.create, none⟩)] 1 ∧
     alookup (aremove [(1, (⟨TrackAction.create, none⟩ : TrackedCfg Nat))] 1) 1 = none ∧
     storeCallsFor (fun v : Nat => v) marshalNat ksId (fun _ : Nat => 5)
       (aremove [(1, ⟨TrackAction.create, none⟩)] 1) 1 = []) ∧
    (deleteEntity (some 2) ([] : TrackedTable Nat Nat)
       = aset [] 2 ⟨TrackAction.del, none⟩ ∧
     storeCallsFor (fun v : Nat => v) marshalNat ksId (fun _ : Nat => 5)
       (aset [] 2 ⟨TrackAction.del, none⟩) 2
       = [StoreCall.deleteKey (getEntityKey ksId (marshalNat 5))]) :=
  ⟨(delete_tracking_state_machine (fun v : Nat => v) marshalNat ksId (fun _ : Nat => 5)
      [(1, ⟨TrackAction.create, none⟩)] 1 (by decide)).1 none (by decide),
   (delete_tracking_state_machine (fun v : Nat => v) marshalNat ksId (fun _ : Nat => 5)
      ([] : TrackedTable Nat Nat) 2 (by decide)).2
      (by intro cfg h; simp [alookup] at h)⟩

/-- A store oracle under which the first dispatched operation succeeds
slowly (time 5) and every other one fails fast (time 1, error 9). -/
def orcSlowOkFastFail : Nat → Nat × Except Nat Unit :=
  fun i => if i = 0 then (5, Except.ok ()) else (1, Except.error 9)

/-- A store oracle under which every dispatched operation succeeds, the i-th
settling at time i + 3. -/
def orcAllOk : Nat → Nat × Except Nat Unit := fun i => (i + 3, Except.ok ())

/-- A store oracle under which every dispatched operation fails at time 1
with error 9. -/
def orcFail9 : Nat → Nat × Except Nat Unit := fun _ => (1, Except.error 9)

/-- A tracked table holding two CREATE-tracked entities. -/
def tblTwoCreates : TrackedTable Nat Nat :=
  [(1, ⟨TrackAction.create, none⟩), (2, ⟨TrackAction.create, none⟩)]

/-- Claim C3 counterexample: with two dispatched operations, the first
succeeding at time 5 and the second failing at time 1, flush rejects (with
that first-encountered error) already at time 1 - strictly before the
sibling operation settles at time 5 - so flush does not wait until every
dispatched operation has settled. -/
theorem flush_fail_fast_counterexample :
    (flushRun (fun v : Nat => v) marshalNat ksId (fun _ : Nat => 0)
        orcSlowOkFastFail tblTwoCreates).1 = 1 ∧
    (flushRun (fun v : Nat => v) marshalNat ksId (fun _ : Nat => 0)
        orcSlowOkFastFail tblTwoCreates).2.1 = Except.error 9 ∧
    (settleOf orcSlowOkFastFail 0 (FlushOp.putCreate (marshalNat 0))).1 = 5 ∧
    (1 : Nat) < 5 :=
  ⟨rfl, rfl, rfl, by decide⟩

/-- Witness for claim C3 (amended) at concrete oracles: an all-success flush
settles after the slowest operation and emits "flushed"; a flush with a
failure rejects at the earliest failure with that error, emitting
"error.flushing" then. -/
theorem flush_promise_all_witness :
    flushRun (fun v : Nat => v) marshalNat ksId (fun _ : Nat => 0) orcAllOk tblTwoCreates
      = (maxSettleTime (settledList (fun v : Nat => v) marshalNat ksId
           (fun _ : Nat => 0) orcAllOk tblTwoCreates),
         Except.ok (),
         perOpEvents (settledList (fun v : Nat => v) marshalNat ksId
             (fun _ : Nat => 0) orcAllOk tblTwoCreates)
           ++ [(maxSettleTime (settledList (fun v : Nat => v) marshalNat ksId
                  (fun _ : Nat => 0) orcAllOk tblTwoCreates), MEvent.flushed)]) ∧
    (flushRun (fun v : Nat => v) marshalNat ksId (fun _ : Nat => 0)
        orcSlowOkFastFail tblTwoCreates
      = ((1 : Nat) , Except.error 9,
         perOpEvents (settledList (fun v : Nat => v) marshalNat ksId
             (fun _ : Nat => 0) orcSlowOkFastFail tblTwoCreates)
           ++ [((1 : Nat), MEvent.errorFlushing)]) ∧
     ((1 : Nat), (9 : Nat)) ∈ failuresOf (settledList (fun v : Nat => v) marshalNat ksId
         (fun _ : Nat => 0) orcSlowOkFastFail tblTwoCreates) ∧
     ∀ q ∈ failuresOf (settledList (fun v : Nat => v) marshalNat ksId
         (fun _ : Nat => 0) orcSlowOkFastFail tblTwoCreates), (1 : Nat) ≤ q.1) :=
  ⟨(flush_promise_all (fun v : Nat => v) marshalNat ksId (fun _ : Nat => 0)
      orcAllOk tblTwoCreates).1 (by decide),
   (flush_promise_all (fun v : Nat => v) marshalNat ksId (fun _ : Nat => 0)
      orcSlowOkFastFail tblTwoCreates).2.2 (1, 9) (by decide)⟩

/-- Claim C6: when a dispatched CREATE or UPDATE operation fails, its catch
emits the action-tagged notification carrying the store error and the
original entity; but when a DELETE fails, `deleteItem` has returned the
store promise from its try block without awaiting it, so its catch never
runs and no "error.deleting" notification is emitted - the flush event log
of a failing delete holds only "error.flushing". -/
theorem flush_delete_failure_emits_no_event :
    flushRun (fun v : Nat => v) marshalNat ksId (fun _ : Nat => 0) orcFail9
        [(1, ⟨TrackAction.del, none⟩)]
      = (1, Except.error 9, [(1, MEvent.errorFlushing)]) ∧
    flushRun (fun v : Nat => v) marshalNat ksId (fun _ : Nat => 0) orcFail9
        [(1, ⟨TrackAction.create, none⟩)]
      = (1, Except.error 9, [(1, MEvent.errorCreating 9 1), (1, MEvent.errorFlushing)]) ∧
    flushRun (fun v : Nat => v) marshalNat ksId (fun _ : Nat => 99) orcFail9
        [(1, ⟨TrackAction.update, some 0⟩)]
      = (1, Except.error 9, [(1, MEvent.errorUpdating 9 1), (1, MEvent.errorFlushing)]) :=
  ⟨rfl, rfl, rfl⟩

/-! ## Pull-based search generator (repository.class.ts)

`search` keeps the current unconsumed page (`batch`) and an exhaustion flag,
filling the batch from `buildScanBlockGenerator` while it is empty and the
source is not exhausted; a block response marks the source exhausted when it
carries no `LastEvaluatedKey`.  The store is modelled by the list of page
responses it would return to the successive block fetches (a well-formed
store response sequence carries a continuation key on every page but the
last).  Whether a pulled raw item is unmarshaled directly or re-fetched by a
point read (non-ALL index projection) is the `searchEmit` branch; in either
branch exactly one raw item is consumed per pull. -/

/-- One query/scan response: raw items plus the optional continuation key. -/
structure Page (I K : Type) where
  Items : List I
  LastEvaluatedKey : Option K
deriving DecidableEq

/-- The generator state: store responses not yet fetched, the current
unconsumed batch, and the (outer and inner, lock-step) sourceIsEmpty flag. -/
structure SearchState (I K : Type) where
  pages : List (Page I K)
  batch : List I
  sourceIsEmpty : Bool
deriving DecidableEq

/-- Fresh generator state for one `search(...)` call. -/
def initSearch {I K : Type} (pages : List (Page I K)) : SearchState I K :=
  ⟨pages, [], false⟩

/-- All raw items of the store region, in store page order. -/
def concatItems {I K : Type} : List (Page I K) → List I
  | [] => []
  | p :: rest => p.Items ++ concatItems rest

/-- A well-formed store response sequence: nonempty, every page except the
last carries a continuation key, the last does not. -/
def wfPages {I K : Type} : List (Page I K) → Bool
  | [] => false
  | [p] => p.LastEvaluatedKey.isNone
  | p :: rest => !p.LastEvaluatedKey.isNone && wfPages rest

/-- The well-formedness invariant of a generator state: once the source is
exhausted no further response is consumed; otherwise the remaining responses
are a well-formed sequence. -/
def wfSearch {I K : Type} (s : SearchState I K) : Bool :=
  if s.sourceIsEmpty then s.pages.isEmpty else wfPages s.pages

/-- The `while (batch.length === 0 && sourceIsEmpty === false)` loop: fetch
the next block, make it the batch, and mark the source exhausted when the
response carries no `LastEvaluatedKey`.  Returns the batch, the flag and the
unconsumed responses when the loop exits.  (The `[], [], false` case is the
store giving no further response - unreachable from a well-formed state.) -/
def fetchLoop {I K : Type} : List (Page I K) → List I → Bool →
    List I × Bool × List (Page I K)
  | pages, batch, true => (batch, true, pages)
  | pages, b :: bs, false => (b :: bs, false, pages)
  | [], [], false => ([], false, [])
  | p :: rest, [], false => fetchLoop rest p.Items p.LastEvaluatedKey.isNone

/-- The two emission branches of the generator body: a non-ALL secondary
index projection makes it re-fetch the popped item through a point read
(`this.get` keyed by the projected hash/range values, abstracted as
`pointRead`); otherwise the popped raw item is unmarshaled directly. -/
def searchEmit {I E : Type} (indexFetch : Bool) (pointRead : I → Option E)
    (unMarshal : I → E) (item : I) : Option E :=
  if indexFetch then pointRead item else some (unMarshal item)

/-- One pull of the generator: run the fetch loop, then either return the
exhausted sentinel (undefined) on an empty batch, or shift one raw item and
emit it. -/
def pull {I K E : Type} (emit : I → Option E) (s : SearchState I K) :
    Option E × SearchState I K :=
  match fetchLoop s.pages s.batch s.sourceIsEmpty with
  | (b :: bs, sie, pages) => (emit b, ⟨pages, bs, sie⟩)
  | ([], sie, pages) => (none, ⟨pages, [], sie⟩)

/-- The result of the (i+1)-th successive pull of the generator. -/
def nthPull {I K E : Type} (emit : I → Option E) (s : SearchState I K) :
    Nat → Option E
  | 0 => (pull emit s).1
  | n + 1 => nthPull emit (pull emit s).2 n

/-- Helper: the fetch loop preserves the remaining raw-item sequence,
preserves well-formedness, and exits with an empty batch only once the
source is exhausted (with no response left). -/
theorem fetchLoop_spec {I K : Type} (pages : List (Page I K)) (batch : List I)
    (sie : Bool)
    (hwf : (if sie then pages.isEmpty else wfPages pages) = true) :
    (fetchLoop pages batch sie).1 ++ concatItems (fetchLoop pages batch sie).2.2
      = batch ++ concatItems pages ∧
    ((fetchLoop pages batch sie).2.1 = true → (fetchLoop pages batch sie).2.2 = []) ∧
    ((fetchLoop pages batch sie).2.1 = false →
      wfPages (fetchLoop pages batch sie).2.2 = true) ∧
    ((fetchLoop pages batch sie).1 = [] → (fetchLoop pages batch sie).2.1 = true) := by
  induction pages generalizing batch sie with
  | nil =>
    cases sie with
    | true =>
      refine ⟨?_, ?_, ?_, ?_⟩
      · simp [fetchLoop, concatItems]
      · intro _
        simp [fetchLoop]
      · intro h
        simp [fetchLoop] at h
      · intro _
        simp [fetchLoop]
    | false =>
      rw [if_neg (by decide)] at hwf
      simp [wfPages] at hwf
  | cons p rest ih =>
    cases sie with
    | true =>
      rw [if_pos rfl] at hwf
      simp at hwf
    | false =>
      rw [if_neg (by decide)] at hwf
      cases batch with
      | cons b bs =>
        refine ⟨rfl, ?_, fun _ => hwf, ?_⟩
        · intro h
          simp [fetchLoop] at h
        · intro h
          simp [fetchLoop] at h
      | nil =>
        have hstep : fetchLoop (p :: rest) [] false
            = fetchLoop rest p.Items p.LastEvaluatedKey.isNone := rfl
        have hwf2 : (if p.LastEvaluatedKey.isNone then rest.isEmpty
            else wfPages rest) = true := by
          cases rest with
          | nil =>
            simp only [wfPages] at hwf
            simp [hwf]
          | cons q rest2 =>
            simp only [wfPages, Bool.and_eq_true, Bool.not_eq_true'] at hwf
            simp [hwf.1, hwf.2]
        obtain ⟨hc, ht, hf, he⟩ := ih p.Items p.LastEvaluatedKey.isNone hwf2
        rw [hstep]
        exact ⟨by simpa [concatItems] using hc, ht, hf, he⟩

/-- Helper: one pull of a well-formed generator state emits (through the
configured branch) the head of the remaining raw-item sequence - or the
sentinel when none remains - and leaves a well-formed state whose remaining
sequence is the tail. -/
theorem pull_spec {I K E : Type} (emit : I → Option E) (s : SearchState I K)
    (hwf : wfSearch s = true) :
    (pull emit s).1 = ((s.batch ++ concatItems s.pages).head?).bind emit ∧
    wfSearch (pull emit s).2 = true ∧
    (pull emit s).2.batch ++ concatItems (pull emit s).2.pages
      = (s.batch ++ concatItems s.pages).tail := by
  obtain ⟨hc, ht, hf, he⟩ := fetchLoop_spec s.pages s.batch s.sourceIsEmpty hwf
  rcases hb : (fetchLoop s.pages s.batch s.sourceIsEmpty) with ⟨b1, sie1, pages1⟩
  rw [hb] at hc ht hf he
  cases b1 with
  | nil =>
    have hsie : sie1 = true := he rfl
    subst hsie
    have hp : pages1 = [] := ht rfl
    subst hp
    have hempty : s.batch ++ concatItems s.pages = [] := by
      simpa [concatItems] using hc.symm
    refine ⟨?_, ?_, ?_⟩
    · simp [pull, hb, hempty]
    · simp [pull, hb, wfSearch]
    · simp [pull, hb, hempty, concatItems]
  | cons b bs =>
    have hcons : s.batch ++ concatItems s.pages = b :: (bs ++ concatItems pages1) := by
      simpa using hc.symm
    refine ⟨?_, ?_, ?_⟩
    · simp [pull, hb, hcons]
    · cases sie1 with
      | true =>
        have hp : pages1 = [] := ht rfl
        simp [pull, hb, wfSearch, hp]
      | false =>
        have hp : wfPages pages1 = true := hf rfl
        simp [pull, hb, wfSearch, hp]
    · simp [pull, hb, hcons]

/-- Helper: the i-th pull of a well-formed generator state emits the i-th
remaining raw item, and the sentinel exactly beyond them. -/
theorem nthPull_spec {I K E : Type} (emit : I → Option E) (s : SearchState I K)
    (hwf : wfSearch s = true) (i : Nat) :
    nthPull emit s i = ((s.batch ++ concatItems s.pages)[i]?).bind emit := by
  induction i generalizing s with
  | zero =>
    have h := (pull_spec emit s hwf).1
    rw [nthPull, h]
    cases s.batch ++ concatItems s.pages <;> simp
  | succ n ih =>
    obtain ⟨h1, hwf2, hcontent⟩ := pull_spec emit s hwf
    rw [nthPull, ih (pull emit s).2 hwf2, hcontent]
    cases s.batch ++ concatItems s.pages <;> simp

/-- Claim C8: for a search over a store region whose pages carry the items
a, b, c in store page order (direct-unmarshal configuration, no partial
index projection), successive pulls yield a, then b, then c in that order;
the fourth pull returns the exhausted sentinel and every further pull does
too - the sentinel appears exactly once the page is empty and no
continuation cursor remains, i.e. pull i is the sentinel iff 3 ≤ i. -/
theorem search_pagination_exhaustion {I K E : Type} (unMarshal : I → E)
    (pointRead : I → Option E) (pages : List (Page I K)) (a b c : I)
    (hwf : wfPages pages = true) (hitems : concatItems pages = [a, b, c]) :
    nthPull (searchEmit false pointRead unMarshal) (initSearch pages) 0
      = some (unMarshal a) ∧
    nthPull (searchEmit false pointRead unMarshal) (initSearch pages) 1
      = some (unMarshal b) ∧
    nthPull (searchEmit false pointRead unMarshal) (initSearch pages) 2
      = some (unMarshal c) ∧
    ∀ i, nthPull (searchEmit false pointRead unMarshal) (initSearch pages) i = none
      ↔ 3 ≤ i := by
  have hws : wfSearch (initSearch pages) = true := by
    simp [wfSearch, initSearch, hwf]
  have hkey : ∀ i, nthPull (searchEmit false pointRead unMarshal) (initSearch pages) i
      = (([a, b, c] : List I)[i]?).map unMarshal := by
    intro i
    rw [nthPull_spec _ _ hws i]
    cases h : ([a, b, c] : List I)[i]? <;>
      simp [initSearch, hitems, searchEmit, h]
  refine ⟨?_, ?_, ?_, ?_⟩
  · rw [hkey 0]
    rfl
  · rw [hkey 1]
    rfl
  · rw [hkey 2]
    rfl
  · intro i
    rw [hkey i]
    match i with
    | 0 => simp
    | 1 => simp
    | 2 => simp
    | n + 3 =>
      have h3 : 3 ≤ n + 3 := Nat.le_add_left 3 n
      simp [h3]

/-- A concrete two-page store region: the first page carries raw items 1, 2
with a continuation key, the second carries item 3 and no continuation. -/
def pagesABC : List (Page Nat Nat) := [⟨[1, 2], some 0⟩, ⟨[3], none⟩]

/-- Witness for claim C8 at the concrete two-page region with unmarshal
adding 100: pulls yield 101, 102, 103, then the sentinel forever. -/
theorem search_pagination_exhaustion_witness :
    nthPull (searchEmit false (fun _ : Nat => (none : Option Nat)) (fun i => i + 100))
      (initSearch pagesABC) 0 = some 101 ∧
    nthPull (searchEmit false (fun _ : Nat => (none : Option Nat)) (fun i => i + 100))
      (initSearch pagesABC) 1 = some 102 ∧
    nthPull (searchEmit false (fun _ : Nat => (none : Option Nat)) (fun i => i + 100))
      (initSearch pagesABC) 2 = some 103 ∧
    nthPull (searchEmit false (fun _ : Nat => (none : Option Nat)) (fun i => i + 100))
      (initSearch pagesABC) 3 = none ∧
    nthPull (searchEmit false (fun _ : Nat => (none : Option Nat)) (fun i => i + 100))
      (initSearch pagesABC) 4 = none :=
  have h := search_pagination_exhaustion (fun i : Nat => i + 100)
    (fun _ : Nat => (none : Option Nat)) pagesABC 1 2 3 (by decide) (by decide)
  ⟨h.1, h.2.1, h.2.2.1, (h.2.2.2 3).mpr (by decide), (h.2.2.2 4).mpr (by decide)⟩
